import Mathlib

/-!
Shallow embedding of `binairo.py`: the `Binairo` grid class, the
`BinairoGenerator` constraint-model builder, the solution post-processing
(the `_solve` reshaping and the `_is_valid_c3` filter) and the
`generate_binairo` removal loop.

Randomness (`random.randint`) is modelled by explicit streams of draws.
The external CP-SAT solver is modelled as a function from the current grid
to the stream of raw satisfying assignments it discovers; the parts of the
enumeration that live in this repository (the solution callback with its
early stop, the reshaping of raw solutions, the C3 post-filter) are
embedded from the source.
-/

/-- A cell of the game grid: `none` models Python `None` (empty). -/
abbrev Cell := Option Nat

/-- The game grid, a list of rows (`Binairo.grid`). -/
abbrev GameGrid := List (List Cell)

/-- A parsed solution board (an entry of `clean_solutions` in `_solve`). -/
abbrev Board := List (List Nat)

/-- `grid[i][j]` (reads as `none` when out of bounds; all in-program uses are
in bounds). -/
def getCell (g : GameGrid) (i j : Nat) : Cell :=
  ((g.get? i).bind (fun row => row.get? j)).join

/-- `grid[i][j] = v` (a no-op when out of bounds; all in-program uses are in
bounds). -/
def setCell (g : GameGrid) (i j : Nat) (v : Cell) : GameGrid :=
  g.set i ((g.getD i []).set j v)

/-- The state of a `Binairo` object: the grid, `filled_squares` and
`last_removed`. -/
structure BState where
  size : Nat
  grid : GameGrid
  filled : List (Nat × Nat)
  lastRemoved : Option ((Nat × Nat) × Cell)
  deriving Repr, DecidableEq

/-- `Binairo._generate_random_grid`: each row is `[random.randint(0,1)] * size`,
one draw per row copied across the whole row. -/
def generateRandomGrid (size : Nat) (draws : Nat → Nat) : GameGrid :=
  (List.range size).map (fun i => List.replicate size (some (draws i % 2)))

/-- `Binairo.__init__`. -/
def binairoInit (size : Nat) (initialGrid : Option GameGrid) (draws : Nat → Nat) :
    BState :=
  { size := size
    grid :=
      match initialGrid with
      | none => generateRandomGrid size draws
      | some g => g
    filled := (List.range size).flatMap (fun x => (List.range size).map (fun y => (x, y)))
    lastRemoved := none }

/-- `Binairo.remove_random_square`; the random index draw is modelled by
`k % len(filled_squares)` and the `assert` by returning `none`. -/
def removeRandomSquare (s : BState) (k : Nat) : Option BState :=
  if s.filled.length = 0 then none
  else
    let idx := k % s.filled.length
    let p := s.filled.getD idx (0, 0)
    let value := getCell s.grid p.1 p.2
    some { s with
      grid := setCell s.grid p.1 p.2 none
      filled := s.filled.eraseIdx idx
      lastRemoved := some (p, value) }

/-- `Binairo.cancel_last_remove`; unpacking `None` (a `TypeError`) is modelled
by returning `none`.  The `last_removed` record is NOT cleared. -/
def cancelLastRemove (s : BState) : Option BState :=
  match s.lastRemoved with
  | none => none
  | some (p, v) =>
    some { s with
      grid := setCell s.grid p.1 p.2 v
      filled := s.filled ++ [p] }

/-! ## The constraint model (`_build_var_grid`, `_add_initial_values`,
`_add_constraint_c1`, `_add_constraint_c2`) -/

inductive CRel
  | eq
  | gt
  | lt
  deriving Repr, DecidableEq

/-- A linear constraint: the sum of the listed cell variables, compared with
`rhs`. -/
structure LinCon where
  vars : List (Nat × Nat)
  rel : CRel
  rhs : Nat
  deriving Repr, DecidableEq

/-- `BinairoGenerator._add_initial_values`. -/
def addInitialValues (n : Nat) (g : GameGrid) : List LinCon :=
  (List.range n).flatMap fun i =>
    (List.range n).flatMap fun j =>
      match getCell g i j with
      | none => []
      | some v => [⟨[(i, j)], CRel.eq, v⟩]

/-- `BinairoGenerator._add_constraint_c1`: row and column window constraints,
interleaved exactly as in the source loops. -/
def addConstraintC1 (n : Nat) : List LinCon :=
  (List.range n).flatMap fun i =>
    (List.range (n - 2)).flatMap fun j =>
      [⟨[(i, j), (i, j + 1), (i, j + 2)], CRel.gt, 0⟩,
       ⟨[(i, j), (i, j + 1), (i, j + 2)], CRel.lt, 3⟩,
       ⟨[(j, i), (j + 1, i), (j + 2, i)], CRel.gt, 0⟩,
       ⟨[(j, i), (j + 1, i), (j + 2, i)], CRel.lt, 3⟩]

/-- `BinairoGenerator._add_constraint_c2` (`line_sum = board_size // 2`). -/
def addConstraintC2 (n : Nat) : List LinCon :=
  ((List.range n).map fun i => ⟨(List.range n).map (fun j => (i, j)), CRel.eq, n / 2⟩) ++
  ((List.range n).map fun j => ⟨(List.range n).map (fun i => (i, j)), CRel.eq, n / 2⟩)

/-- The model built in `_get_valid_solutions`: initial values, then C1,
then C2. -/
def buildModel (n : Nat) (g : GameGrid) : List LinCon :=
  addInitialValues n g ++ addConstraintC1 n ++ addConstraintC2 n

/-- The value of cell variable `(i, j)` under a flat row-major assignment,
matching the insertion order of `var_grid` consumed by the callback. -/
def varVal (n : Nat) (raw : List Nat) (p : Nat × Nat) : Nat :=
  raw.getD (p.1 * n + p.2) 0

/-- Whether a flat assignment satisfies one linear constraint. -/
def evalCon (n : Nat) (raw : List Nat) (c : LinCon) : Bool :=
  match c.rel with
  | CRel.eq => (c.vars.map (varVal n raw)).sum == c.rhs
  | CRel.gt => decide (c.rhs < (c.vars.map (varVal n raw)).sum)
  | CRel.lt => decide ((c.vars.map (varVal n raw)).sum < c.rhs)

/-- Whether a flat assignment satisfies a whole model. -/
def satModel (n : Nat) (m : List LinCon) (raw : List Nat) : Bool :=
  m.all (evalCon n raw)

/-! ## Solution enumeration (`VarArraySolutions`, `_solve`,
`_is_valid_c3`, `_get_valid_solutions`) -/

/-- `VarArraySolutions.on_solution_callback`, folded over the solver's
discovery stream: append each solution, stop the search once the count
reaches 2. -/
def collectCallback : List (List Nat) → List (List Nat) → List (List Nat)
  | [], acc => acc
  | raw :: rest, acc =>
    let acc2 := acc ++ [raw]
    if 2 ≤ acc2.length then acc2 else collectCallback rest acc2

/-- The reshaping in `_solve`: `clean[j][i] = raw[i + j]`, with the index
arithmetic taken verbatim from the source. -/
def reshapeSolution (n : Nat) (raw : List Nat) : Board :=
  (List.range n).map fun j => (List.range n).map fun i => raw.getD (i + j) 0

/-- `BinairoGenerator._is_valid_c3` (Python `set` sizes modelled by `dedup`,
`zip(*board)` by `transpose`). -/
def isValidC3 (b : Board) : Bool :=
  (b.dedup.length == b.length) && (b.transpose.dedup.length == b.length)

/-- A solver behaviour: for each grid, the stream of raw satisfying
assignments the solver would discover, in discovery order. -/
abbrev SolverStream := GameGrid → List (List Nat)

/-- `_solve` (callback collection plus reshaping) followed by the C3
post-filter of `_get_valid_solutions`. -/
def getValidSolutions (n : Nat) (stream : SolverStream) (g : GameGrid) :
    List Board :=
  ((collectCallback (stream g) []).map (reshapeSolution n)).filter isValidC3

/-- The `while` loop of `generate_binairo`; `ks` is the stream of random
draws feeding `remove_random_square`, also serving as fuel. -/
def genLoop (n : Nat) (stream : SolverStream) :
    List Nat → BState → List Board → Option (BState × List Board)
  | ks, s, sols =>
    if sols.length ≠ 0 then some (s, sols)
    else
      match ks with
      | [] => none
      | k :: ks2 =>
        match removeRandomSquare s k with
        | none => none
        | some s2 =>
          let sols2 := getValidSolutions n stream s2.grid
          if 1 < sols2.length then
            match cancelLastRemove s2 with
            | none => none
            | some s3 => genLoop n stream ks2 s3 sols
          else genLoop n stream ks2 s2 sols2

/-- `generate_binairo`: a random dense grid, the removal loop, then the final
`solutions[0]` access (modelled by `get?`, so that an out-of-bounds access
would surface as `none`). -/
def generateBinairo (n : Nat) (draws : Nat → Nat) (ks : List Nat)
    (stream : SolverStream) : Option (BState × List Board × Board) :=
  let s0 := binairoInit n none draws
  let sols0 := getValidSolutions n stream s0.grid
  match genLoop n stream ks s0 sols0 with
  | none => none
  | some (s, sols) => (sols.get? 0).map (fun b => (s, sols, b))

/-- All 0/1 lists of a given length: the assignment space of the model. -/
def allBitLists : Nat → List (List Nat)
  | 0 => [[]]
  | m + 1 => (allBitLists m).flatMap (fun l => [0 :: l, 1 :: l])

/-- A reference solver behaviour used for concrete runs: every 0/1
assignment of the `n * n` variables that satisfies the built model, in a
fixed stream order. -/
def refSolver (n : Nat) : SolverStream :=
  fun g => (allBitLists (n * n)).filter (satModel n (buildModel n g))

/-- Dimensional well-formedness of a `Binairo` state: the grid is `n` rows of
`n` cells and every tracked filled position is in range. -/
def WFState (n : Nat) (s : BState) : Prop :=
  s.grid.length = n ∧ (∀ i, i < n → (s.grid.getD i []).length = n) ∧
    ∀ p ∈ s.filled, p.1 < n ∧ p.2 < n

/-- Modelled from the spec: the constraint set of section 4.2 — a fixed-value
constraint for every non-empty cell; for every row, every column and every
window of three consecutive positions, the two strict window bounds; and for
every row and every column, the balance constraint with right-hand side
`size/2`. -/
def SpecCon (n : Nat) (g : GameGrid) (c : LinCon) : Prop :=
  (∃ i j v, i < n ∧ j < n ∧ getCell g i j = some v ∧
    c = LinCon.mk [(i, j)] CRel.eq v) ∨
  (∃ i w, i < n ∧ w + 2 < n ∧
    (c = LinCon.mk [(i, w), (i, w + 1), (i, w + 2)] CRel.gt 0 ∨
     c = LinCon.mk [(i, w), (i, w + 1), (i, w + 2)] CRel.lt 3)) ∨
  (∃ j w, j < n ∧ w + 2 < n ∧
    (c = LinCon.mk [(w, j), (w + 1, j), (w + 2, j)] CRel.gt 0 ∨
     c = LinCon.mk [(w, j), (w + 1, j), (w + 2, j)] CRel.lt 3)) ∨
  (∃ i, i < n ∧
    c = LinCon.mk ((List.range n).map (fun j => (i, j))) CRel.eq (n / 2)) ∨
  (∃ j, j < n ∧
    c = LinCon.mk ((List.range n).map (fun i => (i, j))) CRel.eq (n / 2))

/-- A mutation of a `Binairo` object: `remove_random_square` (with its random
draw) or `cancel_last_remove`. -/
inductive BOp
  | rem (k : Nat)
  | undo
  deriving Repr, DecidableEq

/-- Run a sequence of mutations; a Python exception aborts the run. -/
def runOps : List BOp → BState → Option BState
  | [], s => some s
  | BOp.rem k :: rest, s => (removeRandomSquare s k).bind (runOps rest)
  | BOp.undo :: rest, s => (cancelLastRemove s).bind (runOps rest)

/-- Whether every `undo` in the sequence comes immediately after a `rem`
(the discipline `generate_binairo` follows); the flag says whether an undo
is currently allowed. -/
def undosOk : Bool → List BOp → Bool
  | _, [] => true
  | allow, BOp.undo :: rest => allow && undosOk false rest
  | _, BOp.rem _ :: rest => undosOk true rest

/-- The filled-positions invariant of the claim: `filled_squares` is exactly
the set of non-empty positions. -/
def FilledMatches (s : BState) : Prop :=
  ∀ p : Nat × Nat, p ∈ s.filled ↔ getCell s.grid p.1 p.2 ≠ none

/-- The state invariant maintained between operations. -/
def StateInv (s : BState) : Prop :=
  FilledMatches s ∧ s.filled.Nodup

/-- The stronger invariant holding right after a removal: the recorded
position is in bounds, empty, tracked nowhere, and its recorded value is an
actual value. -/
def PendingInv (s : BState) : Prop :=
  StateInv s ∧ ∃ p v, s.lastRemoved = some (p, some v) ∧
    p ∉ s.filled ∧ p.1 < s.grid.length ∧ p.2 < (s.grid.getD p.1 []).length ∧
    getCell s.grid p.1 p.2 = none

/-- Concrete states of the size-2 reference run used below: the initial
dense grid drawn from `draws i = 1 - i`. -/
def exampleInit : BState := binairoInit 2 none (fun i => 1 - i)

/-- `exampleInit` after removing cell `(0, 0)`. -/
def exampleRemoved : BState :=
  { size := 2
    grid := [[none, some 1], [some 0, some 0]]
    filled := [(0, 1), (1, 0), (1, 1)]
    lastRemoved := some ((0, 0), some 1) }

/-- `exampleRemoved` after undoing the removal. -/
def exampleRestored : BState :=
  { size := 2
    grid := [[some 1, some 1], [some 0, some 0]]
    filled := [(0, 1), (1, 0), (1, 1), (0, 0)]
    lastRemoved := some ((0, 0), some 1) }

/-- The terminal state of the size-2 reference run of `generate_binairo`. -/
def exampleFinal : BState :=
  { size := 2
    grid := [[none, some 1], [none, none]]
    filled := [(0, 1)]
    lastRemoved := some ((1, 0), some 0) }


/-! ## Grid cell lemmas -/

theorem getD_of_length_le {α : Type} {l : List α} {n : Nat} (d : α)
    (h : l.length ≤ n) : l.getD n d = d := by
  rw [List.getD_eq_getElem?_getD, List.getElem?_eq_none h]
  rfl

theorem set_getD_self {α : Type} {l : List α} {j : Nat} (d : α)
    (h : j < l.length) : l.set j (l.getD j d) = l := by
  apply List.ext_getElem?
  intro m
  rw [List.getElem?_set]
  by_cases hm : j = m
  · subst hm
    simp [h, List.getElem?_eq_getElem h, List.getD_eq_getElem _ _ h]
  · simp [hm]

theorem getCell_eq_getD (g : GameGrid) (i j : Nat) :
    getCell g i j = (g.getD i []).getD j none := by
  rw [getCell, List.get?_eq_getElem?, List.getD_eq_getElem?_getD]
  rcases h : g[i]? with _ | row
  · simp [h]
  · rcases h2 : row[j]? with _ | c <;>
      simp [h, h2, List.get?_eq_getElem?, List.getD_eq_getElem?_getD]

theorem getCell_ne_none_bounds {g : GameGrid} {i j : Nat}
    (h : getCell g i j ≠ none) :
    i < g.length ∧ j < (g.getD i []).length := by
  rw [getCell_eq_getD] at h
  by_cases hi : i < g.length
  · refine ⟨hi, ?_⟩
    by_cases hj : j < (g.getD i []).length
    · exact hj
    · exact absurd (getD_of_length_le none (Nat.le_of_not_lt hj)) h
  · rw [getD_of_length_le [] (Nat.le_of_not_lt hi)] at h
    exact absurd (getD_of_length_le none (Nat.zero_le j)) h

theorem length_setCell (g : GameGrid) (i j : Nat) (v : Cell) :
    (setCell g i j v).length = g.length := by
  simp [setCell]

theorem getRow_setCell_self {g : GameGrid} {i : Nat} (j : Nat) (v : Cell)
    (hi : i < g.length) :
    (setCell g i j v).getD i [] = (g.getD i []).set j v := by
  rw [setCell, List.getD_eq_getElem?_getD, List.getElem?_set_self hi]
  rfl

theorem getRow_setCell_ne {g : GameGrid} {i i2 : Nat} (j : Nat) (v : Cell)
    (h : i ≠ i2) :
    (setCell g i j v).getD i2 [] = g.getD i2 [] := by
  rw [setCell, List.getD_eq_getElem?_getD, List.getElem?_set_ne h,
    List.getD_eq_getElem?_getD]

theorem getCell_setCell_self {g : GameGrid} {i j : Nat} (v : Cell)
    (hi : i < g.length) (hj : j < (g.getD i []).length) :
    getCell (setCell g i j v) i j = v := by
  rw [getCell_eq_getD, getRow_setCell_self j v hi,
    List.getD_eq_getElem?_getD, List.getElem?_set_self hj]
  rfl

theorem getCell_setCell_ne (g : GameGrid) {i j i2 j2 : Nat} (v : Cell)
    (h : i ≠ i2 ∨ j ≠ j2) :
    getCell (setCell g i j v) i2 j2 = getCell g i2 j2 := by
  rcases h with h | h
  · rw [getCell_eq_getD, getCell_eq_getD, getRow_setCell_ne j v h]
  · rw [getCell_eq_getD, getCell_eq_getD]
    by_cases hii : i = i2
    · subst hii
      by_cases hi : i < g.length
      · rw [getRow_setCell_self j v hi, List.getD_eq_getElem?_getD,
          List.getElem?_set_ne h, ← List.getD_eq_getElem?_getD]
      · have hle : g.length ≤ i := Nat.le_of_not_lt hi
        have : setCell g i j v = g := by
          rw [setCell]
          apply List.ext_getElem?
          intro m
          rw [List.getElem?_set]
          by_cases hm : i = m
          · subst hm
            simp [List.getElem?_eq_none hle, hi]
          · simp [hm]
        rw [this]
    · rw [getRow_setCell_ne j v hii]

theorem setCell_restore {g : GameGrid} {i j : Nat} (hi : i < g.length)
    (hj : j < (g.getD i []).length) :
    setCell (setCell g i j none) i j (getCell g i j) = g := by
  have hrow : (setCell g i j none).getD i [] = (g.getD i []).set j none :=
    getRow_setCell_self j none hi
  have h2 : ((g.getD i []).set j none).set j (getCell g i j) = g.getD i [] := by
    rw [List.set_set, getCell_eq_getD, set_getD_self none hj]
  simp only [setCell] at hrow ⊢
  rw [hrow, h2, List.set_set, set_getD_self [] hi]

/-! ## List helper lemmas -/

theorem dedup_length_eq_iff {α : Type} [DecidableEq α] {l : List α} :
    l.dedup.length = l.length ↔ l.Nodup := by
  constructor
  · intro h
    exact List.dedup_eq_self.mp ((List.dedup_sublist l).eq_of_length h)
  · intro h
    rw [List.dedup_eq_self.mpr h]

theorem eraseIdx_append_getD_perm {α : Type} (d : α) {l : List α} {i : Nat}
    (h : i < l.length) :
    (l.eraseIdx i ++ [l.getD i d]).Perm l := by
  induction l generalizing i with
  | nil => simp at h
  | cons a t ih =>
    cases i with
    | zero => simp [List.perm_append_singleton a t]
    | succ m =>
      have hm : m < t.length := Nat.lt_of_succ_lt_succ h
      simpa using (ih hm).cons a

theorem length_le_one_of_pairwise_ne {α : Type} {l : List α}
    (hp : l.Pairwise (fun a b => a ≠ b)) (he : ∀ a ∈ l, ∀ b ∈ l, a = b) :
    l.length ≤ 1 := by
  match l with
  | [] => simp
  | [a] => simp
  | a :: b :: t =>
    exfalso
    have hne : a ≠ b := (List.pairwise_cons.mp hp).1 b (by simp)
    exact hne (he a (by simp) b (by simp))

theorem collectCallback_length_le {l acc : List (List Nat)}
    (h : acc.length ≤ 1) : (collectCallback l acc).length ≤ 2 := by
  induction l generalizing acc with
  | nil => simpa [collectCallback] using Nat.le_trans h (by decide)
  | cons raw rest ih =>
    rw [collectCallback]
    by_cases h2 : 2 ≤ (acc ++ [raw]).length
    · simp only [if_pos h2]
      simp only [List.length_append, List.length_cons, List.length_nil] at h2 ⊢
      omega
    · simp only [if_neg h2]
      apply ih
      simp only [List.length_append, List.length_cons, List.length_nil] at h2 ⊢
      omega

theorem collectCallback_short {l : List (List Nat)} (h : l.length ≤ 1) :
    collectCallback l [] = l := by
  match l with
  | [] => rfl
  | [raw] => rfl
  | raw1 :: raw2 :: t => simp at h

theorem mem_initFilled {n x y : Nat} :
    (x, y) ∈ (List.range n).flatMap (fun a => (List.range n).map (fun b => (a, b))) ↔
      x < n ∧ y < n := by
  simp [List.mem_flatMap]

theorem nodup_initFilled (n : Nat) :
    ((List.range n).flatMap (fun a => (List.range n).map (fun b => (a, b)))).Nodup := by
  rw [List.nodup_flatMap]
  constructor
  · intro x _
    exact (List.nodup_range n).map (fun b c h => (Prod.ext_iff.mp h).2)
  · apply (List.nodup_range n).imp
    intro a b hab
    intro p hpa hpb
    rcases List.mem_map.mp hpa with ⟨c, _, rfl⟩
    rcases List.mem_map.mp hpb with ⟨e, _, he⟩
    exact hab (Prod.ext_iff.mp he).1.symm

theorem getRow_generateRandomGrid {n : Nat} (d : Nat → Nat) {i : Nat}
    (hi : i < n) :
    (generateRandomGrid n d).getD i [] = List.replicate n (some (d i % 2)) := by
  rw [generateRandomGrid, List.getD_eq_getElem?_getD, List.getElem?_map,
    List.getElem?_range hi]
  rfl

theorem getCell_generateRandomGrid {n : Nat} (d : Nat → Nat) {i j : Nat}
    (hi : i < n) (hj : j < n) :
    getCell (generateRandomGrid n d) i j = some (d i % 2) := by
  rw [getCell_eq_getD, getRow_generateRandomGrid d hi,
    List.getD_eq_getElem?_getD, List.getElem?_replicate, if_pos hj]
  rfl

theorem getCell_generateRandomGrid_ne_none_iff {n : Nat} (d : Nat → Nat)
    (i j : Nat) :
    getCell (generateRandomGrid n d) i j ≠ none ↔ i < n ∧ j < n := by
  constructor
  · intro h
    rcases getCell_ne_none_bounds h with ⟨hi, hj⟩
    rw [generateRandomGrid] at hi
    simp only [List.length_map, List.length_range] at hi
    refine ⟨hi, ?_⟩
    rw [getRow_generateRandomGrid d hi, List.length_replicate] at hj
    exact hj
  · rintro ⟨hi, hj⟩
    rw [getCell_generateRandomGrid d hi hj]
    simp

/-! ## Model lemmas: a fully fixed grid admits at most one raw solution -/

theorem fixCon_mem_addInitialValues {n : Nat} {g : GameGrid} {i j v : Nat}
    (hi : i < n) (hj : j < n) (h : getCell g i j = some v) :
    LinCon.mk [(i, j)] CRel.eq v ∈ addInitialValues n g := by
  rw [addInitialValues, List.mem_flatMap]
  refine ⟨i, List.mem_range.mpr hi, ?_⟩
  rw [List.mem_flatMap]
  refine ⟨j, List.mem_range.mpr hj, ?_⟩
  rw [h]
  simp

theorem fixCon_mem_buildModel {n : Nat} {g : GameGrid} {i j v : Nat}
    (hi : i < n) (hj : j < n) (h : getCell g i j = some v) :
    LinCon.mk [(i, j)] CRel.eq v ∈ buildModel n g := by
  rw [buildModel]
  exact List.mem_append.mpr (Or.inl (List.mem_append.mpr
    (Or.inl (fixCon_mem_addInitialValues hi hj h))))

theorem satModel_fix {n : Nat} {g : GameGrid} {raw : List Nat} {i j v : Nat}
    (hs : satModel n (buildModel n g) raw = true)
    (hm : LinCon.mk [(i, j)] CRel.eq v ∈ buildModel n g) :
    raw.getD (i * n + j) 0 = v := by
  have h := List.all_eq_true.mp hs _ hm
  rw [evalCon] at h
  simpa [varVal] using h

theorem raw_eq_of_dense {n : Nat} {g : GameGrid} {raw1 raw2 : List Nat}
    (hd : ∀ i j, i < n → j < n → getCell g i j ≠ none)
    (h1 : satModel n (buildModel n g) raw1 = true)
    (h2 : satModel n (buildModel n g) raw2 = true)
    (l1 : raw1.length = n * n) (l2 : raw2.length = n * n) :
    raw1 = raw2 := by
  apply List.ext_getElem?
  intro t
  by_cases ht : t < n * n
  · have hn : 0 < n := by
      rcases Nat.eq_zero_or_pos n with h | h
      · subst h
        simp at ht
      · exact h
    have hi : t / n < n := (Nat.div_lt_iff_lt_mul hn).mpr ht
    have hj : t % n < n := Nat.mod_lt t hn
    have hidx : t / n * n + t % n = t := by
      rw [Nat.mul_comm]
      exact Nat.div_add_mod t n
    rcases hv : getCell g (t / n) (t % n) with _ | v
    · exact absurd hv (hd _ _ hi hj)
    · have hmem := fixCon_mem_buildModel hi hj hv
      have e1 := satModel_fix h1 hmem
      have e2 := satModel_fix h2 hmem
      rw [hidx] at e1 e2
      rw [List.getD_eq_getElem _ _ (l1 ▸ ht)] at e1
      rw [List.getD_eq_getElem _ _ (l2 ▸ ht)] at e2
      rw [List.getElem?_eq_getElem (l1 ▸ ht), List.getElem?_eq_getElem (l2 ▸ ht),
        e1, e2]
  · rw [List.getElem?_eq_none (l1 ▸ Nat.le_of_not_lt ht),
      List.getElem?_eq_none (l2 ▸ Nat.le_of_not_lt ht)]

theorem getValidSolutions_dense_le_one {n : Nat} {stream : SolverStream}
    {g : GameGrid}
    (hd : ∀ i j, i < n → j < n → getCell g i j ≠ none)
    (hsat : ∀ raw ∈ stream g, satModel n (buildModel n g) raw = true)
    (hlen : ∀ raw ∈ stream g, raw.length = n * n)
    (hdist : (stream g).Pairwise (fun a b => a ≠ b)) :
    (getValidSolutions n stream g).length ≤ 1 := by
  have hshort : (stream g).length ≤ 1 := by
    apply length_le_one_of_pairwise_ne hdist
    intro a ha b hb
    exact raw_eq_of_dense hd (hsat a ha) (hsat b hb) (hlen a ha) (hlen b hb)
  rw [getValidSolutions, collectCallback_short hshort]
  calc ((( stream g).map (reshapeSolution n)).filter isValidC3).length
      ≤ ((stream g).map (reshapeSolution n)).length :=
        List.length_filter_le _ _
    _ = (stream g).length := List.length_map _ _
    _ ≤ 1 := hshort

/-! ## Well-formed states and the removal loop invariant -/

theorem setCell_of_length_le {g : GameGrid} {i : Nat} (j : Nat) (v : Cell)
    (h : g.length ≤ i) : setCell g i j v = g := by
  rw [setCell]
  apply List.ext_getElem?
  intro m
  rw [List.getElem?_set]
  by_cases hm : i = m
  · subst hm
    simp [List.getElem?_eq_none h, Nat.not_lt.mpr h]
  · simp [hm]

theorem length_getRow_setCell (g : GameGrid) (i j i2 : Nat) (v : Cell) :
    ((setCell g i j v).getD i2 []).length = (g.getD i2 []).length := by
  by_cases hii : i = i2
  · subst hii
    by_cases hi : i < g.length
    · rw [getRow_setCell_self j v hi, List.length_set]
    · rw [setCell_of_length_le j v (Nat.le_of_not_lt hi)]
  · rw [getRow_setCell_ne j v hii]

theorem wf_binairoInit_none (n : Nat) (d : Nat → Nat) :
    WFState n (binairoInit n none d) := by
  refine ⟨by simp [binairoInit, generateRandomGrid], ?_, ?_⟩
  · intro i hi
    show ((generateRandomGrid n d).getD i []).length = n
    rw [getRow_generateRandomGrid d hi, List.length_replicate]
  · rintro ⟨x, y⟩ hp
    exact mem_initFilled.mp hp

theorem removeRandomSquare_eq_some {s : BState} {k : Nat} {s2 : BState}
    (h : removeRandomSquare s k = some s2) :
    s.filled.length ≠ 0 ∧
      s2 = { s with
        grid := setCell s.grid (s.filled.getD (k % s.filled.length) (0, 0)).1
          (s.filled.getD (k % s.filled.length) (0, 0)).2 none
        filled := s.filled.eraseIdx (k % s.filled.length)
        lastRemoved := some (s.filled.getD (k % s.filled.length) (0, 0),
          getCell s.grid (s.filled.getD (k % s.filled.length) (0, 0)).1
            (s.filled.getD (k % s.filled.length) (0, 0)).2) } := by
  rw [removeRandomSquare] at h
  by_cases h0 : s.filled.length = 0
  · rw [if_pos h0] at h
    cases h
  · rw [if_neg h0] at h
    exact ⟨h0, (Option.some_inj.mp h).symm⟩

theorem removed_pos_mem {s : BState} {k : Nat}
    (h0 : s.filled.length ≠ 0) :
    s.filled.getD (k % s.filled.length) (0, 0) ∈ s.filled := by
  have hidx : k % s.filled.length < s.filled.length :=
    Nat.mod_lt k (Nat.pos_of_ne_zero h0)
  rw [List.getD_eq_getElem _ _ hidx]
  exact List.getElem_mem hidx

theorem remove_wf {n : Nat} {s : BState} {k : Nat} {s2 : BState}
    (hw : WFState n s) (h : removeRandomSquare s k = some s2) :
    WFState n s2 := by
  obtain ⟨h0, rfl⟩ := removeRandomSquare_eq_some h
  obtain ⟨hg, hr, hf⟩ := hw
  refine ⟨by rw [length_setCell]; exact hg, ?_, ?_⟩
  · intro i hi
    rw [length_getRow_setCell]
    exact hr i hi
  · intro p hp
    exact hf p (List.eraseIdx_sublist _ _ |>.mem hp)

theorem cancelLastRemove_eq_some {s : BState} {s2 : BState}
    (h : cancelLastRemove s = some s2) :
    ∃ p v, s.lastRemoved = some (p, v) ∧
      s2 = { s with grid := setCell s.grid p.1 p.2 v, filled := s.filled ++ [p] } := by
  rw [cancelLastRemove] at h
  rcases hl : s.lastRemoved with _ | pv
  · rw [hl] at h
    cases h
  · rcases pv with ⟨p, v⟩
    rw [hl] at h
    exact ⟨p, v, rfl, (Option.some_inj.mp h).symm⟩

theorem remove_cancel_spec {n : Nat} {s : BState} {k : Nat} {s2 s3 : BState}
    (hw : WFState n s) (h : removeRandomSquare s k = some s2)
    (h2 : cancelLastRemove s2 = some s3) :
    s3.grid = s.grid ∧
      s3.filled = s.filled.eraseIdx (k % s.filled.length) ++
        [s.filled.getD (k % s.filled.length) (0, 0)] ∧
      WFState n s3 := by
  obtain ⟨h0, rfl⟩ := removeRandomSquare_eq_some h
  obtain ⟨p, v, hl, rfl⟩ := cancelLastRemove_eq_some h2
  simp only at hl
  obtain ⟨hp, hv⟩ : p = s.filled.getD (k % s.filled.length) (0, 0) ∧
      v = getCell s.grid (s.filled.getD (k % s.filled.length) (0, 0)).1
        (s.filled.getD (k % s.filled.length) (0, 0)).2 := by
    have := Option.some_inj.mp hl
    exact ⟨(Prod.ext_iff.mp this.symm).1, (Prod.ext_iff.mp this.symm).2⟩
  subst hp
  subst hv
  obtain ⟨hg, hr, hf⟩ := hw
  have hpm := removed_pos_mem (k := k) h0
  obtain ⟨hp1, hp2⟩ := hf _ hpm
  have hgr : setCell
      (setCell s.grid (s.filled.getD (k % s.filled.length) (0, 0)).1
        (s.filled.getD (k % s.filled.length) (0, 0)).2 none)
      (s.filled.getD (k % s.filled.length) (0, 0)).1
      (s.filled.getD (k % s.filled.length) (0, 0)).2
      (getCell s.grid (s.filled.getD (k % s.filled.length) (0, 0)).1
        (s.filled.getD (k % s.filled.length) (0, 0)).2) = s.grid := by
    apply setCell_restore
    · rw [hg]
      exact hp1
    · rw [hr _ hp1]
      exact hp2
  refine ⟨hgr, rfl, ?_, ?_, ?_⟩
  · simp only [hgr, hg]
  · intro i hi
    simp only [hgr]
    exact hr i hi
  · intro q hq
    rcases List.mem_append.mp hq with hq | hq
    · exact hf q (List.eraseIdx_sublist _ _ |>.mem hq)
    · rw [List.mem_singleton.mp hq]
      exact ⟨hp1, hp2⟩

theorem genLoop_nil (n : Nat) (stream : SolverStream) (s : BState)
    (sols : List Board) :
    genLoop n stream [] s sols =
      if sols.length ≠ 0 then some (s, sols) else none := by
  rw [genLoop]

theorem genLoop_cons (n : Nat) (stream : SolverStream) (k : Nat) (ks : List Nat)
    (s : BState) (sols : List Board) :
    genLoop n stream (k :: ks) s sols =
      if sols.length ≠ 0 then some (s, sols)
      else
        match removeRandomSquare s k with
        | none => none
        | some s2 =>
          if 1 < (getValidSolutions n stream s2.grid).length then
            match cancelLastRemove s2 with
            | none => none
            | some s3 => genLoop n stream ks s3 sols
          else genLoop n stream ks s2 (getValidSolutions n stream s2.grid) := by
  rw [genLoop]

/-- Invariant of the removal loop: whenever `genLoop` exits, the solution
list of the exit state has exactly one element and matches a re-enumeration
on the exit grid. -/
theorem genLoop_exit_core {n : Nat} {stream : SolverStream} :
    ∀ ks : List Nat, ∀ s : BState, ∀ sols : List Board, ∀ s2 : BState,
      ∀ sols2 : List Board,
      WFState n s → sols = getValidSolutions n stream s.grid →
      sols.length ≤ 1 →
      genLoop n stream ks s sols = some (s2, sols2) →
      sols2.length = 1 ∧ sols2 = getValidSolutions n stream s2.grid ∧
        WFState n s2 := by
  intro ks
  induction ks with
  | nil =>
    intro s sols s2 sols2 hw hsols hle hrun
    rw [genLoop_nil] at hrun
    by_cases h0 : sols.length ≠ 0
    · rw [if_pos h0] at hrun
      obtain ⟨rfl, rfl⟩ := Prod.mk.injEq s sols s2 sols2 ▸ Option.some_inj.mp hrun
      exact ⟨Nat.le_antisymm hle (Nat.one_le_iff_ne_zero.mpr h0), hsols, hw⟩
    · rw [if_neg h0] at hrun
      cases hrun
  | cons k ks ih =>
    intro s sols s2 sols2 hw hsols hle hrun
    rw [genLoop_cons] at hrun
    by_cases h0 : sols.length ≠ 0
    · rw [if_pos h0] at hrun
      obtain ⟨rfl, rfl⟩ := Prod.mk.injEq s sols s2 sols2 ▸ Option.some_inj.mp hrun
      exact ⟨Nat.le_antisymm hle (Nat.one_le_iff_ne_zero.mpr h0), hsols, hw⟩
    · rw [if_neg h0] at hrun
      rcases hrem : removeRandomSquare s k with _ | sr
      · rw [hrem] at hrun
        cases hrun
      · rw [hrem] at hrun
        have hwr := remove_wf hw hrem
        have hrun2 : (if 1 < (getValidSolutions n stream sr.grid).length then
            (match cancelLastRemove sr with
             | none => none
             | some s3 => genLoop n stream ks s3 sols)
            else genLoop n stream ks sr (getValidSolutions n stream sr.grid)) =
            some (s2, sols2) := hrun
        by_cases hb : 1 < (getValidSolutions n stream sr.grid).length
        · rw [if_pos hb] at hrun2
          rcases hcan : cancelLastRemove sr with _ | sc
          · rw [hcan] at hrun2
            cases hrun2
          · rw [hcan] at hrun2
            have hrun3 : genLoop n stream ks sc sols = some (s2, sols2) := hrun2
            obtain ⟨hgrid, _, hwc⟩ := remove_cancel_spec hw hrem hcan
            refine ih sc sols s2 sols2 hwc ?_ hle hrun3
            rw [hgrid]
            exact hsols
        · rw [if_neg hb] at hrun2
          exact ih sr _ s2 sols2 hwr rfl (Nat.le_of_not_lt hb) hrun2

/-! ## The constraint set as the specification words it (for the
refinement claim about the model contents) -/

theorem mem_addInitialValues_iff {n : Nat} {g : GameGrid} {c : LinCon} :
    c ∈ addInitialValues n g ↔
      ∃ i j v, i < n ∧ j < n ∧ getCell g i j = some v ∧
        c = LinCon.mk [(i, j)] CRel.eq v := by
  rw [addInitialValues]
  simp only [List.mem_flatMap, List.mem_range]
  constructor
  · rintro ⟨i, hi, j, hj, hc⟩
    rcases hv : getCell g i j with _ | v
    · rw [hv] at hc
      cases hc
    · rw [hv] at hc
      rw [List.mem_singleton] at hc
      exact ⟨i, j, v, hi, hj, hv, hc⟩
  · rintro ⟨i, j, v, hi, hj, hv, rfl⟩
    refine ⟨i, hi, j, hj, ?_⟩
    rw [hv]
    simp

theorem mem_addConstraintC1_iff {n : Nat} {c : LinCon} :
    c ∈ addConstraintC1 n ↔
      ∃ i w, i < n ∧ w < n - 2 ∧
        (c = LinCon.mk [(i, w), (i, w + 1), (i, w + 2)] CRel.gt 0 ∨
         c = LinCon.mk [(i, w), (i, w + 1), (i, w + 2)] CRel.lt 3 ∨
         c = LinCon.mk [(w, i), (w + 1, i), (w + 2, i)] CRel.gt 0 ∨
         c = LinCon.mk [(w, i), (w + 1, i), (w + 2, i)] CRel.lt 3) := by
  rw [addConstraintC1]
  simp only [List.mem_flatMap, List.mem_range, List.mem_cons,
    List.mem_singleton, List.not_mem_nil, or_false]
  constructor
  · rintro ⟨i, hi, w, hw, h⟩
    exact ⟨i, w, hi, hw, h⟩
  · rintro ⟨i, w, hi, hw, h⟩
    exact ⟨i, hi, w, hw, h⟩

theorem mem_addConstraintC2_iff {n : Nat} {c : LinCon} :
    c ∈ addConstraintC2 n ↔
      (∃ i, i < n ∧
        c = LinCon.mk ((List.range n).map (fun j => (i, j))) CRel.eq (n / 2)) ∨
      (∃ j, j < n ∧
        c = LinCon.mk ((List.range n).map (fun i => (i, j))) CRel.eq (n / 2)) := by
  rw [addConstraintC2]
  simp only [List.mem_append, List.mem_map, List.mem_range]
  constructor
  · rintro (⟨i, hi, rfl⟩ | ⟨j, hj, rfl⟩)
    · exact Or.inl ⟨i, hi, rfl⟩
    · exact Or.inr ⟨j, hj, rfl⟩
  · rintro (⟨i, hi, rfl⟩ | ⟨j, hj, rfl⟩)
    · exact Or.inl ⟨i, hi, rfl⟩
    · exact Or.inr ⟨j, hj, rfl⟩

/-! ## Operation sequences on a `Binairo` object and the filled-set
invariant -/

theorem stateInv_binairoInit_none (n : Nat) (d : Nat → Nat) :
    StateInv (binairoInit n none d) := by
  constructor
  · rintro ⟨x, y⟩
    show (x, y) ∈ (List.range n).flatMap _ ↔
      getCell (generateRandomGrid n d) x y ≠ none
    rw [mem_initFilled, getCell_generateRandomGrid_ne_none_iff]
  · exact nodup_initFilled n

theorem stateInv_binairoInit_full (n : Nat) (g : GameGrid) (d : Nat → Nat)
    (hlen : g.length = n) (hrows : ∀ i, i < n → (g.getD i []).length = n)
    (hfull : ∀ i j, i < n → j < n → getCell g i j ≠ none) :
    StateInv (binairoInit n (some g) d) := by
  constructor
  · rintro ⟨x, y⟩
    show (x, y) ∈ (List.range n).flatMap _ ↔ getCell g x y ≠ none
    rw [mem_initFilled]
    constructor
    · rintro ⟨hx, hy⟩
      exact hfull x y hx hy
    · intro h
      rcases getCell_ne_none_bounds h with ⟨hx, hy⟩
      rw [hlen] at hx
      rw [hrows x hx] at hy
      exact ⟨hx, hy⟩
  · exact nodup_initFilled n

theorem remove_pendingInv {s : BState} {k : Nat} {s2 : BState}
    (hs : StateInv s) (h : removeRandomSquare s k = some s2) :
    PendingInv s2 := by
  obtain ⟨h0, rfl⟩ := removeRandomSquare_eq_some h
  obtain ⟨hm, hnd⟩ := hs
  set idx := k % s.filled.length with hidx
  set p := s.filled.getD idx (0, 0) with hp
  have hidxlt : idx < s.filled.length := Nat.mod_lt k (Nat.pos_of_ne_zero h0)
  have hpget : s.filled[idx] = p := by
    rw [hp, List.getD_eq_getElem _ _ hidxlt]
  have hpmem : p ∈ s.filled := removed_pos_mem h0
  have hpval : getCell s.grid p.1 p.2 ≠ none := (hm p).mp hpmem
  obtain ⟨hb1, hb2⟩ := getCell_ne_none_bounds hpval
  have hpnotmem : p ∉ s.filled.eraseIdx idx := by
    intro hmem
    rcases List.mem_eraseIdx_iff_getElem.mp hmem with ⟨m, hml, hmne, hme⟩
    exact hmne (hnd.getElem_inj_iff.mp (hme.trans hpget.symm))
  have hcellset : getCell (setCell s.grid p.1 p.2 none) p.1 p.2 = none :=
    getCell_setCell_self none hb1 hb2
  refine ⟨⟨?_, hnd.eraseIdx idx⟩, ?_⟩
  · intro q
    show q ∈ s.filled.eraseIdx idx ↔
      getCell (setCell s.grid p.1 p.2 none) q.1 q.2 ≠ none
    by_cases hq : q = p
    · subst hq
      rw [hcellset]
      simp [hpnotmem]
    · have hcomp : p.1 ≠ q.1 ∨ p.2 ≠ q.2 := by
        by_contra hcon
        push_neg at hcon
        exact hq (Prod.ext_iff.mpr ⟨hcon.1, hcon.2⟩).symm
      rw [getCell_setCell_ne _ _ hcomp, ← hm q]
      constructor
      · intro hmem
        exact (List.eraseIdx_sublist _ _).mem hmem
      · intro hmem
        rcases (List.mem_iff_getElem).mp hmem with ⟨m, hml, hme⟩
        apply List.mem_eraseIdx_iff_getElem.mpr
        refine ⟨m, hml, ?_, hme⟩
        intro hcon
        subst hcon
        exact hq (hme.symm.trans hpget)
  · rcases hv : getCell s.grid p.1 p.2 with _ | v
    · exact absurd hv hpval
    · refine ⟨p, v, by rw [← hv], hpnotmem, ?_, ?_, hcellset⟩
      · rw [length_setCell]
        exact hb1
      · rw [length_getRow_setCell]
        exact hb2

theorem cancel_stateInv {s : BState} {s2 : BState}
    (hs : PendingInv s) (h : cancelLastRemove s = some s2) :
    StateInv s2 := by
  obtain ⟨⟨hm, hnd⟩, p, v, hl, hpnot, hb1, hb2, hempty⟩ := hs
  obtain ⟨p2, v2, hl2, rfl⟩ := cancelLastRemove_eq_some h
  rw [hl] at hl2
  obtain ⟨hp2, hv2⟩ := Prod.mk.injEq .. ▸ Option.some_inj.mp hl2
  subst hp2
  subst hv2
  constructor
  · intro q
    show q ∈ s.filled ++ [p] ↔ getCell (setCell s.grid p.1 p.2 (some v)) q.1 q.2 ≠ none
    by_cases hq : q = p
    · subst hq
      rw [getCell_setCell_self (some v) hb1 hb2]
      simp
    · have hcomp : p.1 ≠ q.1 ∨ p.2 ≠ q.2 := by
        by_contra hcon
        push_neg at hcon
        exact hq (Prod.ext_iff.mpr ⟨hcon.1, hcon.2⟩).symm
      rw [getCell_setCell_ne _ _ hcomp, List.mem_append, List.mem_singleton]
      rw [← hm q]
      simp [hq]
  · rw [List.nodup_append]
    refine ⟨hnd, List.nodup_singleton p, ?_⟩
    intro q hq hq2
    rw [List.mem_singleton] at hq2
    subst hq2
    exact hpnot hq

theorem runOps_stateInv :
    ∀ ops : List BOp, ∀ allow : Bool, ∀ s s2 : BState,
      undosOk allow ops = true →
      (if allow then PendingInv s else StateInv s) →
      runOps ops s = some s2 → StateInv s2 := by
  intro ops
  induction ops with
  | nil =>
    intro allow s s2 _ hinv hrun
    cases hrun
    cases allow with
    | false => exact hinv
    | true => exact hinv.1
  | cons op rest ih =>
    intro allow s s2 hok hinv hrun
    have hsi : StateInv s := by
      cases allow with
      | false => exact hinv
      | true => exact hinv.1
    cases op with
    | rem k =>
      rcases hrem : removeRandomSquare s k with _ | sr
      · rw [runOps, hrem] at hrun
        cases hrun
      · rw [runOps, hrem] at hrun
        have hok2 : undosOk true rest = true := hok
        exact ih true sr s2 hok2 (by simpa using remove_pendingInv hsi hrem) hrun
    | undo =>
      have hok2 : (allow && undosOk false rest) = true := hok
      rcases Bool.and_eq_true_iff.mp hok2 with ⟨hallow, hok3⟩
      subst hallow
      rcases hcan : cancelLastRemove s with _ | sc
      · rw [runOps, hcan] at hrun
        cases hrun
      · rw [runOps, hcan] at hrun
        exact ih false sc s2 hok3 (by simpa using cancel_stateInv hinv hcan) hrun

theorem cancelLastRemove_eq_none_iff (s : BState) :
    cancelLastRemove s = none ↔ s.lastRemoved = none := by
  rcases hl : s.lastRemoved with _ | pv
  · simp [cancelLastRemove, hl]
  · rcases pv with ⟨p, v⟩
    simp [cancelLastRemove, hl]

/-! ## Claim theorems -/

/-- C3: the constraint model built from a grid contains exactly the
fixed-value constraints of the non-empty cells, both strict bounds for every
row window and every column window of three consecutive positions, and the
balance constraint (sum equals `size/2`) for every row and every column. -/
theorem buildModel_contains_exactly_spec (n : Nat) (g : GameGrid) (c : LinCon) :
    c ∈ buildModel n g ↔ SpecCon n g c := by
  rw [buildModel]
  simp only [List.mem_append]
  rw [mem_addInitialValues_iff, mem_addConstraintC1_iff, mem_addConstraintC2_iff]
  rw [SpecCon]
  constructor
  · rintro ((h | h) | h)
    · exact Or.inl h
    · rcases h with ⟨i, w, hi, hw, h4⟩
      have hw2 : w + 2 < n := by omega
      rcases h4 with h | h | h | h
      · exact Or.inr (Or.inl ⟨i, w, hi, hw2, Or.inl h⟩)
      · exact Or.inr (Or.inl ⟨i, w, hi, hw2, Or.inr h⟩)
      · exact Or.inr (Or.inr (Or.inl ⟨i, w, hi, hw2, Or.inl h⟩))
      · exact Or.inr (Or.inr (Or.inl ⟨i, w, hi, hw2, Or.inr h⟩))
    · rcases h with h | h
      · exact Or.inr (Or.inr (Or.inr (Or.inl h)))
      · exact Or.inr (Or.inr (Or.inr (Or.inr h)))
  · rintro (h | ⟨i, w, hi, hw2, h | h⟩ | ⟨j, w, hj, hw2, h | h⟩ | h | h)
    · exact Or.inl (Or.inl h)
    · exact Or.inl (Or.inr ⟨i, w, hi, by omega, Or.inl h⟩)
    · exact Or.inl (Or.inr ⟨i, w, hi, by omega, Or.inr (Or.inl h)⟩)
    · exact Or.inl (Or.inr ⟨j, w, hj, by omega, Or.inr (Or.inr (Or.inl h))⟩)
    · exact Or.inl (Or.inr ⟨j, w, hj, by omega, Or.inr (Or.inr (Or.inr h))⟩)
    · exact Or.inr (Or.inl h)
    · exact Or.inr (Or.inr h)

/-- C4: solution enumeration is total, yields at most two solutions after
the C3 post-filter, yields the empty sequence on an empty (infeasible)
solver stream, and every returned board passed the duplicate-row /
duplicate-column filter. -/
theorem getValidSolutions_never_fails (n : Nat) (stream : SolverStream)
    (g : GameGrid) :
    (getValidSolutions n stream g).length ≤ 2 ∧
      (stream g = [] → getValidSolutions n stream g = []) ∧
      ∀ b ∈ getValidSolutions n stream g, isValidC3 b = true ∧ b.Nodup := by
  refine ⟨?_, ?_, ?_⟩
  · rw [getValidSolutions]
    calc (((collectCallback (stream g) []).map
          (reshapeSolution n)).filter isValidC3).length
        ≤ ((collectCallback (stream g) []).map (reshapeSolution n)).length :=
          List.length_filter_le _ _
      _ = (collectCallback (stream g) []).length := List.length_map _ _
      _ ≤ 2 := collectCallback_length_le (by simp)
  · intro h
    rw [getValidSolutions, h]
    rfl
  · intro b hb
    rw [getValidSolutions] at hb
    have h2 := (List.mem_filter.mp hb).2
    refine ⟨h2, ?_⟩
    rw [isValidC3] at h2
    rcases Bool.and_eq_true_iff.mp h2 with ⟨hr, _⟩
    exact dedup_length_eq_iff.mp (beq_iff_eq.mp hr)

theorem getValidSolutions_never_fails_witness :
    (getValidSolutions 2 (refSolver 2) [[none, some 1], [none, none]]).length ≤ 2 ∧
      getValidSolutions 2 (fun _ => []) [[none, some 1], [none, none]] = [] := by
  constructor
  · exact (getValidSolutions_never_fails 2 (refSolver 2)
      [[none, some 1], [none, none]]).1
  · exact (getValidSolutions_never_fails 2 (fun _ => [])
      [[none, some 1], [none, none]]).2.1 rfl

/-- C5: in `_generate_random_grid` one random draw per row is copied across
the whole row, so any two in-range cells of the same row are always equal —
no draw of the randomness can put both a 0 and a 1 in one row, contradicting
the claimed independent per-cell randomization. -/
theorem generateRandomGrid_row_constant (n : Nat) (d : Nat → Nat)
    (i j1 j2 : Nat) (h1 : j1 < n) (h2 : j2 < n) :
    getCell (generateRandomGrid n d) i j1 =
      getCell (generateRandomGrid n d) i j2 := by
  by_cases hi : i < n
  · rw [getCell_generateRandomGrid d hi h1, getCell_generateRandomGrid d hi h2]
  · have hlen : (generateRandomGrid n d).length ≤ i := by
      simp [generateRandomGrid, Nat.le_of_not_lt hi]
    rw [getCell_eq_getD, getCell_eq_getD, getD_of_length_le [] hlen]
    simp

theorem generateRandomGrid_row_constant_witness :
    getCell (generateRandomGrid 2 (fun _ => 1)) 0 0 =
      getCell (generateRandomGrid 2 (fun _ => 1)) 0 1 :=
  generateRandomGrid_row_constant 2 (fun _ => 1) 0 0 1 (by decide) (by decide)

/-- C2 (failing-input evaluation): a complete concrete run of
`generate_binairo` with the reference solver on board size 2.  The only raw
satisfying assignment of the final model is `[0, 1, 1, 0]`, but the `_solve`
reshaping `clean[j][i] = raw[i + j]` garbles it into `[[0, 1], [1, 1]]`,
which is returned as the solution even though its second row sums to 2
instead of `size/2 = 1` — the returned solution violates the C2 balance
rule the claim asserts. -/
theorem generate_binairo_solution_violates_balance :
    generateBinairo 2 (fun i => 1 - i) [0, 2, 1] (refSolver 2) =
      some (exampleFinal, [[[0, 1], [1, 1]]], [[0, 1], [1, 1]]) ∧
      refSolver 2 [[none, some 1], [none, none]] = [[0, 1, 1, 0]] ∧
      reshapeSolution 2 [0, 1, 1, 0] = [[0, 1], [1, 1]] ∧
      (([[0, 1], [1, 1]] : Board).getD 1 []).sum ≠ 2 / 2 := by decide

/-- C8 (amended): `Binairo.__init__` performs no size validation at all —
construction succeeds for every size (odd and zero included), producing a
`size`-row grid with `size` cells per row. -/
theorem binairoInit_no_validation (n : Nat) (d : Nat → Nat) :
    (binairoInit n none d).size = n ∧
      (binairoInit n none d).grid.length = n ∧
      ((binairoInit n none d).grid.all (fun row => row.length == n)) = true := by
  refine ⟨rfl, by simp [binairoInit, generateRandomGrid], ?_⟩
  rw [List.all_eq_true]
  intro row hrow
  have hrow2 : row ∈ (List.range n).map
      (fun i => List.replicate n (some (d i % 2))) := hrow
  rcases List.mem_map.mp hrow2 with ⟨i, _, rfl⟩
  simp

/-- C8 (counterexample): construction at odd size 3 and at size 0 succeeds
normally — no `InvalidSize` failure exists in the code. -/
theorem binairoInit_odd_size_succeeds_cex :
    (binairoInit 3 none (fun _ => 0)).grid =
      [[some 0, some 0, some 0], [some 0, some 0, some 0],
       [some 0, some 0, some 0]] ∧
      (binairoInit 0 none (fun _ => 0)).size = 0 := by decide

/-- C9 (amended): `cancel_last_remove` fails exactly when no removal was
ever recorded; on success it restores the recorded value at the recorded
position and re-appends the position to `filled_squares`, but it does NOT
clear `last_removed`, so an immediately following undo succeeds again. -/
theorem cancelLastRemove_spec (s : BState) :
    (cancelLastRemove s = none ↔ s.lastRemoved = none) ∧
      ∀ s2, cancelLastRemove s = some s2 →
        s2.lastRemoved = s.lastRemoved ∧
        ∃ p v, s.lastRemoved = some (p, v) ∧
          s2.grid = setCell s.grid p.1 p.2 v ∧ s2.filled = s.filled ++ [p] ∧
          cancelLastRemove s2 ≠ none := by
  refine ⟨cancelLastRemove_eq_none_iff s, ?_⟩
  intro s2 h
  obtain ⟨p, v, hl, rfl⟩ := cancelLastRemove_eq_some h
  refine ⟨rfl, p, v, hl, rfl, rfl, ?_⟩
  intro hcon
  exact absurd ((cancelLastRemove_eq_none_iff _).mp hcon) (by simp [hl])

theorem cancelLastRemove_spec_witness :
    exampleRestored.lastRemoved = exampleRemoved.lastRemoved ∧
    ∃ p v, exampleRemoved.lastRemoved = some (p, v) ∧
      exampleRestored.grid = setCell exampleRemoved.grid p.1 p.2 v ∧
      exampleRestored.filled = exampleRemoved.filled ++ [p] ∧
      cancelLastRemove exampleRestored ≠ none :=
  (cancelLastRemove_spec exampleRemoved).2 exampleRestored (by decide)

/-- C9 (counterexample): immediately after a successful undo a second undo
succeeds again instead of failing, because `last_removed` is never
cleared. -/
theorem cancel_after_cancel_succeeds_cex :
    (((removeRandomSquare (binairoInit 2 none (fun i => 1 - i)) 0).bind
        cancelLastRemove).bind cancelLastRemove).isSome = true := by decide

/-- C1: whenever the removal loop of `generate_binairo` terminates, the
filtered solution list of the exit state has exactly one element, and
re-enumerating the valid solutions of the returned grid yields that same
one-element list.  The external solver is any stream of pairwise-distinct
satisfying assignments of the built model for the initial dense grid. -/
theorem generate_binairo_unique_solution (n : Nat) (draws : Nat → Nat)
    (ks : List Nat) (stream : SolverStream) (s : BState) (sols : List Board)
    (hsat : ∀ raw ∈ stream (binairoInit n none draws).grid,
      satModel n (buildModel n (binairoInit n none draws).grid) raw = true)
    (hlen : ∀ raw ∈ stream (binairoInit n none draws).grid,
      raw.length = n * n)
    (hdist : (stream (binairoInit n none draws).grid).Pairwise
      (fun a b => a ≠ b))
    (hrun : genLoop n stream ks (binairoInit n none draws)
      (getValidSolutions n stream (binairoInit n none draws).grid) =
      some (s, sols)) :
    sols.length = 1 ∧ getValidSolutions n stream s.grid = sols := by
  have hdense : ∀ i j, i < n → j < n →
      getCell (binairoInit n none draws).grid i j ≠ none := by
    intro i j hi hj
    show getCell (generateRandomGrid n draws) i j ≠ none
    exact (getCell_generateRandomGrid_ne_none_iff draws i j).mpr ⟨hi, hj⟩
  have hle := getValidSolutions_dense_le_one hdense hsat hlen hdist
  obtain ⟨h1, h2, _⟩ := genLoop_exit_core ks _ _ s sols
    (wf_binairoInit_none n draws) rfl hle hrun
  exact ⟨h1, h2.symm⟩

theorem generate_binairo_unique_solution_witness :
    ([[[0, 1], [1, 1]]] : List Board).length = 1 ∧
      getValidSolutions 2 (refSolver 2) exampleFinal.grid =
        [[[0, 1], [1, 1]]] := by
  have hempty : refSolver 2 (binairoInit 2 none (fun i => 1 - i)).grid = [] := by
    decide
  apply generate_binairo_unique_solution 2 (fun i => 1 - i) [0, 2, 1]
    (refSolver 2)
  · intro raw hraw
    rw [hempty] at hraw
    cases hraw
  · intro raw hraw
    rw [hempty] at hraw
    cases hraw
  · rw [hempty]
    exact List.Pairwise.nil
  · decide

/-- C10: whenever the removal loop exits, the filtered solution list is
non-empty, so the final `solutions[0]` access of `generate_binairo` is in
bounds: the whole run produces a value rather than an index error. -/
theorem generate_binairo_first_index_safe (n : Nat) (draws : Nat → Nat)
    (ks : List Nat) (stream : SolverStream) (s : BState) (sols : List Board)
    (hsat : ∀ raw ∈ stream (binairoInit n none draws).grid,
      satModel n (buildModel n (binairoInit n none draws).grid) raw = true)
    (hlen : ∀ raw ∈ stream (binairoInit n none draws).grid,
      raw.length = n * n)
    (hdist : (stream (binairoInit n none draws).grid).Pairwise
      (fun a b => a ≠ b))
    (hrun : genLoop n stream ks (binairoInit n none draws)
      (getValidSolutions n stream (binairoInit n none draws).grid) =
      some (s, sols)) :
    (sols.get? 0).isSome = true ∧
      generateBinairo n draws ks stream = some (s, sols, sols.getD 0 []) := by
  have hdense : ∀ i j, i < n → j < n →
      getCell (binairoInit n none draws).grid i j ≠ none := by
    intro i j hi hj
    show getCell (generateRandomGrid n draws) i j ≠ none
    exact (getCell_generateRandomGrid_ne_none_iff draws i j).mpr ⟨hi, hj⟩
  have hle := getValidSolutions_dense_le_one hdense hsat hlen hdist
  obtain ⟨h1, _, _⟩ := genLoop_exit_core ks _ _ s sols
    (wf_binairoInit_none n draws) rfl hle hrun
  have hgb : generateBinairo n draws ks stream =
      match genLoop n stream ks (binairoInit n none draws)
        (getValidSolutions n stream (binairoInit n none draws).grid) with
      | none => none
      | some (s3, sols3) => (sols3.get? 0).map (fun b => (s3, sols3, b)) := rfl
  rcases sols with _ | ⟨b, t⟩
  · simp at h1
  · rcases t with _ | ⟨c, t2⟩
    · refine ⟨rfl, ?_⟩
      rw [hgb, hrun]
      rfl
    · simp at h1

theorem generate_binairo_first_index_safe_witness :
    (([[[0, 1], [1, 1]]] : List Board).get? 0).isSome = true ∧
      generateBinairo 2 (fun i => 1 - i) [0, 2, 1] (refSolver 2) =
        some (exampleFinal, [[[0, 1], [1, 1]]],
          ([[[0, 1], [1, 1]]] : List Board).getD 0 []) := by
  have hempty : refSolver 2 (binairoInit 2 none (fun i => 1 - i)).grid = [] := by
    decide
  apply generate_binairo_first_index_safe 2 (fun i => 1 - i) [0, 2, 1]
    (refSolver 2)
  · intro raw hraw
    rw [hempty] at hraw
    cases hraw
  · intro raw hraw
    rw [hempty] at hraw
    cases hraw
  · rw [hempty]
    exact List.Pairwise.nil
  · decide

/-- C6 (amended): `filled_squares` equals exactly the set of non-empty
positions after construction — provided any supplied initial grid is a
fully filled `size` by `size` grid — and after every sequence of
`remove_random_square` and `cancel_last_remove` operations in which each
undo comes immediately after a removal (the discipline `generate_binairo`
follows).  Without those two provisos the claim fails, see the
counterexample. -/
theorem filled_matches_invariant (n : Nat) (d : Nat → Nat)
    (gOpt : Option GameGrid) (ops : List BOp) (s2 : BState)
    (hinit : ∀ g, gOpt = some g → g.length = n ∧
      (∀ i, i < n → (g.getD i []).length = n) ∧
      ∀ i j, i < n → j < n → getCell g i j ≠ none)
    (hops : undosOk false ops = true)
    (hrun : runOps ops (binairoInit n gOpt d) = some s2) :
    FilledMatches s2 := by
  have hsi : StateInv (binairoInit n gOpt d) := by
    cases gOpt with
    | none => exact stateInv_binairoInit_none n d
    | some g =>
      obtain ⟨h1, h2, h3⟩ := hinit g rfl
      exact stateInv_binairoInit_full n g d h1 h2 h3
  exact (runOps_stateInv ops false _ s2 hops (by simpa using hsi) hrun).1

theorem filled_matches_invariant_witness :
    FilledMatches
      { size := 2
        grid := [[some 0, some 0], [some 0, some 0]]
        filled := [(0, 1), (1, 0), (1, 1), (0, 0)]
        lastRemoved := some ((0, 0), some 0) } := by
  apply filled_matches_invariant 2 (fun _ => 0) none [BOp.rem 0, BOp.undo]
  · intro g hg
    cases hg
  · decide
  · decide

/-- C6 (counterexample): constructing a `Binairo` from a supplied grid with
an empty cell puts every position into `filled_squares` anyway, so
`filled_squares` does not equal the set of non-empty positions right after
construction. -/
theorem filled_matches_invariant_cex :
    (0, 0) ∈ (binairoInit 1 (some [[none]]) (fun _ => 0)).filled ∧
      getCell (binairoInit 1 (some [[none]]) (fun _ => 0)).grid 0 0 = none := by
  decide

/-- C7 (amended): removing a random cell and undoing the removal restores
every cell value exactly (the grids are equal) and restores
`filled_squares` up to order — it is a permutation of the original in which
the removed position has moved to the end, not the original list itself. -/
theorem remove_cancel_restores (n : Nat) (s : BState) (k : Nat)
    (s2 s3 : BState) (hw : WFState n s)
    (h : removeRandomSquare s k = some s2)
    (h2 : cancelLastRemove s2 = some s3) :
    s3.grid = s.grid ∧ s3.filled.Perm s.filled ∧
      s3.filled = s.filled.eraseIdx (k % s.filled.length) ++
        [s.filled.getD (k % s.filled.length) (0, 0)] := by
  obtain ⟨hg, hf, _⟩ := remove_cancel_spec hw h h2
  have h0 : s.filled.length ≠ 0 := (removeRandomSquare_eq_some h).1
  refine ⟨hg, ?_, hf⟩
  rw [hf]
  exact eraseIdx_append_getD_perm (0, 0) (Nat.mod_lt k (Nat.pos_of_ne_zero h0))

theorem remove_cancel_restores_witness :
    exampleRestored.grid = exampleInit.grid ∧
      exampleRestored.filled.Perm exampleInit.filled ∧
      exampleRestored.filled =
        exampleInit.filled.eraseIdx (0 % exampleInit.filled.length) ++
          [exampleInit.filled.getD (0 % exampleInit.filled.length) (0, 0)] :=
  remove_cancel_restores 2 exampleInit 0 exampleRemoved exampleRestored
    (wf_binairoInit_none 2 (fun i => 1 - i)) (by decide) (by decide)

/-- C7 (counterexample): after remove-then-undo the `filled_squares` list is
NOT bitwise-identical to its pre-removal state — the removed position has
moved from the front to the back of the list. -/
theorem remove_cancel_not_identical_cex :
    ((removeRandomSquare (binairoInit 2 none (fun i => 1 - i)) 0).bind
        cancelLastRemove).map (fun s => s.filled) =
      some [(0, 1), (1, 0), (1, 1), (0, 0)] ∧
      (binairoInit 2 none (fun i => 1 - i)).filled =
        [(0, 0), (0, 1), (1, 0), (1, 1)] ∧
      ([(0, 1), (1, 0), (1, 1), (0, 0)] : List (Nat × Nat)) ≠
        [(0, 0), (0, 1), (1, 0), (1, 1)] := by decide
